import Mathlib

/-!
Verification of core properties of the recall-mcp repository: the secret
lifecycle manager and redaction helpers (src/env.ts and its sibling
generation exporting sanitizeSecrets), the Zod schema codec and the
dynamic tool registry (src/tool-manager.ts), and the client manager's
guarded accessors (src/recall-client.ts).

Modelling conventions: JavaScript strings are `String` / `List Char`;
JavaScript records are association lists; thrown exceptions are `Except`;
`process.env` slots are `Option String` fields of an explicit state
record; the sodium secure buffer is the `Option String` it stores.
-/

namespace RecallMcp

/-! ## JavaScript string primitives

Character-level models of the JavaScript string operations the sources
use. `isHexChar` is the regex class [0-9a-fA-F]; `isJsSpace` is `\s`
restricted to the whitespace code points that can actually occur here.
-/

def isHexChar (c : Char) : Bool :=
  decide (('0' ≤ c ∧ c ≤ '9') ∨ ('a' ≤ c ∧ c ≤ 'f') ∨ ('A' ≤ c ∧ c ≤ 'F'))

def isJsSpace (c : Char) : Bool :=
  decide (c = ' ' ∨ c = '\t' ∨ c = '\n' ∨ c = '\r' ∨ c = '\x0b' ∨ c = '\x0c' ∨ c = ' ')

/-- JavaScript single-character `String.prototype.split`. -/
def splitOnChar (sep : Char) : List Char → List (List Char)
  | [] => [[]]
  | c :: cs =>
    match splitOnChar sep cs with
    | [] => [[c]]
    | g :: gs => if c = sep then [] :: g :: gs else (c :: g) :: gs

/-- JavaScript `String.prototype.trim` (both ends, whitespace). -/
def trimChars (l : List Char) : List Char :=
  ((l.dropWhile isJsSpace).reverse.dropWhile isJsSpace).reverse

/-- JavaScript `String.prototype.includes` on char lists. -/
def containsChars (pat : List Char) : List Char → Bool
  | [] => pat.isEmpty
  | c :: cs => pat.isPrefixOf (c :: cs) || containsChars pat cs

def containsStr (s sub : String) : Bool := containsChars sub.data s.data

/-- JavaScript `String.prototype.toLowerCase` (ASCII range). -/
def lowerStr (s : String) : String := ⟨s.data.map Char.toLower⟩

/-- JavaScript `String.prototype.startsWith`. -/
def strStartsWith (s pre : String) : Bool := pre.data.isPrefixOf s.data

/-- JavaScript `String.prototype.replace` with a plain-string pattern:
replaces the first occurrence only. -/
def replaceFirstChars (pat rep : List Char) : List Char → List Char
  | [] => if pat.isEmpty then rep else []
  | c :: cs =>
    if pat.isPrefixOf (c :: cs) then rep ++ (c :: cs).drop pat.length
    else c :: replaceFirstChars pat rep cs

def replaceFirst (s pat rep : String) : String :=
  ⟨replaceFirstChars pat.data rep.data s.data⟩

/-! ## The redaction pipeline of src/env.ts (redactSensitive, string branch)

The string branch of `redactSensitive` chains three global regex
replacements:
  .replace(/[0-9a-fA-F]{64}/g, '[REDACTED_KEY]')
  .replace(/[^=&\s]{32,}/g, '[REDACTED_LONG_VALUE]')
  .replace(/(private_key|secret|key|token|password)=([^&\s]+)/gi, '$1=[REDACTED]')
Each is modelled as a left-to-right scanner over `List Char`, with an
explicit fuel argument (fuel ≥ list length, so the 0 case is never hit)
so that all functions are structurally recursive and kernel-evaluable.
-/

def sentinelHex : List Char :=
  ['[', 'R', 'E', 'D', 'A', 'C', 'T', 'E', 'D', '_', 'K', 'E', 'Y', ']']

def sentinelLong : List Char :=
  ['[', 'R', 'E', 'D', 'A', 'C', 'T', 'E', 'D', '_', 'L', 'O', 'N', 'G', '_',
   'V', 'A', 'L', 'U', 'E', ']']

/-- The replacement tail `=[REDACTED]` that follows the kept keyword `$1`. -/
def redactedTail : List Char :=
  ['=', '[', 'R', 'E', 'D', 'A', 'C', 'T', 'E', 'D', ']']

/-- Length of the maximal hex-digit prefix; the regex /[0-9a-fA-F]\x7b64\x7d/
matches at a position iff this is ≥ 64 there. -/
def hexPrefLen : List Char → Nat
  | [] => 0
  | c :: cs => if isHexChar c then hexPrefLen cs + 1 else 0

def replaceHex64Fuel : Nat → List Char → List Char
  | 0, l => l
  | _ + 1, [] => []
  | fuel + 1, c :: cs =>
    if 64 ≤ hexPrefLen (c :: cs) then
      sentinelHex ++ replaceHex64Fuel fuel (List.drop 64 (c :: cs))
    else
      c :: replaceHex64Fuel fuel cs

def replaceHex64 (l : List Char) : List Char := replaceHex64Fuel l.length l

/-- The character class [^=&\s] of the long-value rule. -/
def isLongChar (c : Char) : Bool := !(c = '=' || c = '&' || isJsSpace c)

def plainPrefLen : List Char → Nat
  | [] => 0
  | c :: cs => if isLongChar c then plainPrefLen cs + 1 else 0

def replaceLongFuel : Nat → List Char → List Char
  | 0, l => l
  | _ + 1, [] => []
  | fuel + 1, c :: cs =>
    if 32 ≤ plainPrefLen (c :: cs) then
      sentinelLong ++ replaceLongFuel fuel (List.drop (plainPrefLen (c :: cs)) (c :: cs))
    else
      c :: replaceLongFuel fuel cs

def replaceLong (l : List Char) : List Char := replaceLongFuel l.length l

/-- Case-insensitive keyword match: each pattern entry is the (lower, upper)
pair of one letter, mirroring the /i flag on the fixed keywords. -/
def matchCI : List (Char × Char) → List Char → Bool
  | [], _ => true
  | _ :: _, [] => false
  | (a, b) :: ps, c :: cs => (c = a || c = b) && matchCI ps cs

def kwPrivateKey : List (Char × Char) :=
  [('p', 'P'), ('r', 'R'), ('i', 'I'), ('v', 'V'), ('a', 'A'), ('t', 'T'),
   ('e', 'E'), ('_', '_'), ('k', 'K'), ('e', 'E'), ('y', 'Y')]

def kwSecret : List (Char × Char) :=
  [('s', 'S'), ('e', 'E'), ('c', 'C'), ('r', 'R'), ('e', 'E'), ('t', 'T')]

def kwKey : List (Char × Char) := [('k', 'K'), ('e', 'E'), ('y', 'Y')]

def kwToken : List (Char × Char) :=
  [('t', 'T'), ('o', 'O'), ('k', 'K'), ('e', 'E'), ('n', 'N')]

def kwPassword : List (Char × Char) :=
  [('p', 'P'), ('a', 'A'), ('s', 'S'), ('s', 'S'), ('w', 'W'), ('o', 'O'),
   ('r', 'R'), ('d', 'D')]

/-- The value class [^&\s] of the key=value rule (note `=` is allowed). -/
def isKVValChar (c : Char) : Bool := !(c = '&' || isJsSpace c)

/-- Try to match `keyword=value` at the head of `l`; on success return the
keyword as matched (original casing, for `$1`) and the total matched
length. -/
def matchOne (pat : List (Char × Char)) (l : List Char) : Option (List Char × Nat) :=
  if matchCI pat l then
    match List.drop pat.length l with
    | c :: r2 =>
      if c = '=' then
        if (r2.takeWhile isKVValChar).length = 0 then none
        else some (l.take pat.length, pat.length + 1 + (r2.takeWhile isKVValChar).length)
      else none
    | [] => none
  else none

/-- The ordered alternation (private_key|secret|key|token|password). -/
def matchKV (l : List Char) : Option (List Char × Nat) :=
  match matchOne kwPrivateKey l with
  | some r => some r
  | none =>
    match matchOne kwSecret l with
    | some r => some r
    | none =>
      match matchOne kwKey l with
      | some r => some r
      | none =>
        match matchOne kwToken l with
        | some r => some r
        | none => matchOne kwPassword l

def replaceKVFuel : Nat → List Char → List Char
  | 0, l => l
  | _ + 1, [] => []
  | fuel + 1, c :: cs =>
    match matchKV (c :: cs) with
    | some (kw, n) => kw ++ redactedTail ++ replaceKVFuel fuel (List.drop n (c :: cs))
    | none => c :: replaceKVFuel fuel cs

def replaceKV (l : List Char) : List Char := replaceKVFuel l.length l

/-- The full string branch of redactSensitive (src/env.ts lines 22-27). -/
def redactChars (l : List Char) : List Char := replaceKV (replaceLong (replaceHex64 l))

def redactString (s : String) : String := ⟨redactChars s.data⟩

/-! ## JavaScript values and the structured branch of redactSensitive -/

mutual

/-- JSON-shaped JavaScript values, enough for the `any`-typed inputs the
redaction helpers and tool configurations handle. The array and object
payloads are mutual inductives of their own (isomorphic to lists) so that
all recursions below are structural and kernel-evaluable. -/
inductive JsonV where
  | str (s : String)
  | num (n : Int)
  | bool (b : Bool)
  | null
  | arr (elems : JsonArr)
  | obj (entries : JsonObj)

inductive JsonArr where
  | nil
  | cons (head : JsonV) (tail : JsonArr)

inductive JsonObj where
  | nil
  | cons (key : String) (value : JsonV) (tail : JsonObj)

end

/-- The entries of an object as an ordinary list, for stating properties. -/
def JsonObj.toList : JsonObj → List (String × JsonV)
  | .nil => []
  | .cons k v rest => (k, v) :: rest.toList

def JsonObj.ofList : List (String × JsonV) → JsonObj
  | [] => .nil
  | (k, v) :: rest => .cons k v (ofList rest)

/-- The object-branch key test of redactSensitive (src/env.ts line 31):
key.toLowerCase().includes('key') || key.toLowerCase().includes('secret'). -/
def sensObjKey (k : String) : Bool :=
  containsStr (lowerStr k) "key" || containsStr (lowerStr k) "secret"

mutual

/-- redactSensitive (src/env.ts lines 21-38). Strings go through the
three-regex pipeline; objects get each entry's value replaced by
'[REDACTED]' when the key test fires and recursed into otherwise; arrays
are `typeof 'object'` in JavaScript, so Object.entries turns them into
objects keyed by decimal indices; numbers, booleans and null fall through
unchanged (they are either not objects or falsy). -/
def redactSensitive : JsonV → JsonV
  | .str s => .str (redactString s)
  | .obj entries => .obj (redactEntries entries)
  | .arr elems => .obj (redactIndexed 0 elems)
  | .num n => .num n
  | .bool b => .bool b
  | .null => .null

def redactEntries : JsonObj → JsonObj
  | .nil => .nil
  | .cons k v rest =>
    .cons k (if sensObjKey k then JsonV.str "[REDACTED]" else redactSensitive v)
      (redactEntries rest)

def redactIndexed : Nat → JsonArr → JsonObj
  | _, .nil => .nil
  | i, .cons v rest =>
    .cons (toString i)
      (if sensObjKey (toString i) then JsonV.str "[REDACTED]" else redactSensitive v)
      (redactIndexed (i + 1) rest)

end

/-- The entry object of an object value (empty for non-objects). -/
def objEntries : JsonV → JsonObj
  | .obj entries => entries
  | _ => .nil

/-! ## sanitizeSecrets (the env generation in unnamed/part_000) -/

def sensitiveKeys : List String :=
  ["private_key", "privatekey", "secret", "password", "pass", "key", "token",
   "auth", "credential", "sign", "encrypt"]

def isSensitiveKey (k : String) : Bool :=
  sensitiveKeys.any fun sk => containsStr (lowerStr k) sk

/-- The masking rule of sanitizeSecrets: values longer than 8 characters show
only the first and last 4 characters around an ellipsis, shorter ones become
the fixed 8-star mask. -/
def maskValue (s : String) : String :=
  if 8 < s.data.length then
    ⟨s.data.take 4⟩ ++ "..." ++ ⟨s.data.drop (s.data.length - 4)⟩
  else "********"

/-- sanitizeSecrets (unnamed/part_000 lines 35-75): shallow copy where every
string value under a key containing one of the sensitive keywords
(case-insensitive) is masked; other entries are left as they are. -/
def sanitizeSecrets : JsonObj → JsonObj
  | .nil => .nil
  | .cons k v rest =>
    .cons k
      (if isSensitiveKey k then
        match v with
        | .str value => JsonV.str (maskValue value)
        | _ => v
      else v)
      (sanitizeSecrets rest)

/-! ## The secret store of src/env.ts

State of the module-level mutable bindings plus the external inputs
loadSecrets reads: the RECALL_PRIVATE_KEY process-env slot, the .env file
content (`none` when readFileSync throws), and the optional integrity hash
ENV_FILE_HASH. The sodium SecureBuffer is modelled by the string it holds;
sodium_memzero + releasing the handle is modelled by setting it to `none`.
-/

structure SecretSt where
  secretBuffer : Option String
  secretLoaded : Bool
  envPrivateKey : Option String
  envFileContent : Option String
  expectedEnvHash : Option String
deriving DecidableEq

inductive LoadFailReason where
  | fileReadError
  | integrityMismatch
  | keyMissingInFile
deriving DecidableEq

/-- All load failures surface as the single wrapped error
'Cannot proceed without RECALL_PRIVATE_KEY: ...'; the reason records which
inner throw produced it. -/
inductive LoadErr where
  | cannotProceed (reason : LoadFailReason)
deriving DecidableEq

/-- .env parsing (src/env.ts lines 82-86): split lines on '\n', split each
line on '=', keep the first two components when both are non-empty before
trimming, store them trimmed; later lines overwrite earlier ones. -/
def parseEnvFile (content : String) : List (String × String) :=
  (splitOnChar '\n' content.data).foldl
    (fun acc line =>
      match splitOnChar '=' line with
      | key :: value :: _ =>
        if !key.isEmpty && !value.isEmpty then
          acc ++ [(String.mk (trimChars key), String.mk (trimChars value))]
        else acc
      | _ => acc)
    []

/-- JavaScript object indexing where the last assignment wins. -/
def lookupLast (l : List (String × String)) (key : String) : Option String :=
  l.foldl (fun r kv => if kv.1 = key then some kv.2 else r) none

/-- The .env fallback path of loadSecrets: parse and store the key, throwing
(wrapped) when the key is absent or empty. -/
def parseAndStore (st : SecretSt) (envContent : String) : Except LoadErr SecretSt :=
  match lookupLast (parseEnvFile envContent) "RECALL_PRIVATE_KEY" with
  | some envKey =>
    if envKey ≠ "" then
      .ok { st with secretBuffer := some envKey, envPrivateKey := some "[REDACTED]",
                    secretLoaded := true }
    else .error (.cannotProceed .keyMissingInFile)
  | none => .error (.cannotProceed .keyMissingInFile)

/-- The try-block of loadSecrets (src/env.ts lines 72-103): read the .env
file, optionally verify its hash (the check is skipped when ENV_FILE_HASH is
unset or empty, both falsy), then parse. -/
def loadFromEnvFile (hash : String → String) (st : SecretSt) : Except LoadErr SecretSt :=
  match st.envFileContent with
  | none => .error (.cannotProceed .fileReadError)
  | some envContent =>
    match st.expectedEnvHash with
    | some expectedHash =>
      if expectedHash ≠ "" ∧ hash envContent ≠ expectedHash then
        .error (.cannotProceed .integrityMismatch)
      else parseAndStore st envContent
    | none => parseAndStore st envContent

/-- loadSecrets (src/env.ts lines 56-104). The external-environment branch
fires on any truthy (non-empty) RECALL_PRIVATE_KEY slot value; both success
branches overwrite the slot with '[REDACTED]' and set the loaded flag. -/
def loadSecrets (hash : String → String) (st : SecretSt) : Except LoadErr SecretSt :=
  if st.secretLoaded then .ok st
  else
    match st.envPrivateKey with
    | some externalKey =>
      if externalKey ≠ "" then
        .ok { st with secretBuffer := some externalKey,
                      envPrivateKey := some "[REDACTED]", secretLoaded := true }
      else loadFromEnvFile hash st
    | none => loadFromEnvFile hash st

/-- getPrivateKey (src/env.ts lines 115-126): hand out the buffer content
once, zero and release the buffer, clear the loaded flag. -/
def getPrivateKey (st : SecretSt) : Except String (String × SecretSt) :=
  match st.secretBuffer with
  | none => .error "RECALL_PRIVATE_KEY is required but not available."
  | some key =>
    .ok (key, { st with secretBuffer := none, secretLoaded := false })

/-! ## The Zod schema codec of src/tool-manager.ts

Zod validators are modelled by their runtime class plus the description
slot. `zinstanceOf` stands for z.instanceof(...) (used in the repository's
shared parameter schemas inside unions), a kind none of the five
instanceof checks of extractZodSchemaInfo recognize. `isOptional` is Zod's
isOptional(), i.e. whether the validator accepts `undefined`: true for
ZodOptional wrappers and for ZodAny (which accepts everything), false for
the rigid kinds. -/

inductive ZodTy where
  | zstring (desc : Option String)
  | znumber (desc : Option String)
  | zboolean (desc : Option String)
  | zarray (elem : ZodTy) (desc : Option String)
  | zobject (desc : Option String)
  | zoptional (inner : ZodTy) (desc : Option String)
  | zany (desc : Option String)
  | zinstanceOf (desc : Option String)
deriving DecidableEq

def ZodTy.desc : ZodTy → Option String
  | .zstring d | .znumber d | .zboolean d | .zobject d | .zany d | .zinstanceOf d => d
  | .zarray _ d | .zoptional _ d => d

/-- `.describe(d)` returns the same validator with the description set. -/
def ZodTy.describe : ZodTy → String → ZodTy
  | .zstring _, d => .zstring (some d)
  | .znumber _, d => .znumber (some d)
  | .zboolean _, d => .zboolean (some d)
  | .zarray e _, d => .zarray e (some d)
  | .zobject _, d => .zobject (some d)
  | .zoptional i _, d => .zoptional i (some d)
  | .zany _, d => .zany (some d)
  | .zinstanceOf _, d => .zinstanceOf (some d)

/-- Zod's isOptional(): does the validator accept `undefined`? -/
def ZodTy.isOptional : ZodTy → Bool
  | .zoptional _ _ => true
  | .zany _ => true
  | _ => false

/-- The persisted per-parameter schema shape (src/tool-manager.ts lines
6-11). Absent JSON fields are `none`. -/
structure SerializedToolSchema where
  type : String
  description : Option String := none
  required : Option Bool := none
  exampleField : Option String := none
deriving DecidableEq

/-- Models `validator.description || undefined`: an empty-string description
is falsy and collapses to undefined. -/
def jsOrNone (d : Option String) : Option String :=
  match d with
  | some s => if s = "" then none else some s
  | none => none

/-- extractZodSchemaInfo (src/tool-manager.ts lines 24-62): five instanceof
checks, then the `unknown` fallback, which sets no `required` field. Note
that a ZodOptional wrapper is not an instance of the five base classes, so
optional validators take the fallback. -/
def extractZodSchemaInfo : ZodTy → SerializedToolSchema
  | .zstring d =>
    { type := "string", description := jsOrNone d,
      required := some (!(ZodTy.zstring d).isOptional) }
  | .znumber d =>
    { type := "number", description := jsOrNone d,
      required := some (!(ZodTy.znumber d).isOptional) }
  | .zboolean d =>
    { type := "boolean", description := jsOrNone d,
      required := some (!(ZodTy.zboolean d).isOptional) }
  | .zarray e d =>
    { type := "array", description := jsOrNone d,
      required := some (!(ZodTy.zarray e d).isOptional) }
  | .zobject d =>
    { type := "object", description := jsOrNone d,
      required := some (!(ZodTy.zobject d).isOptional) }
  | v => { type := "unknown", description := jsOrNone v.desc, required := none }

/-- createZodValidatorFromSchema (src/tool-manager.ts lines 67-99): decode
the type tag (unknown tags decode to z.any()), re-apply a truthy
description, and wrap in .optional() exactly when `required` is strictly
equal to false. -/
def createZodValidatorFromSchema (schema : SerializedToolSchema) : ZodTy :=
  let validator : ZodTy :=
    match schema.type with
    | "string" => .zstring none
    | "number" => .znumber none
    | "boolean" => .zboolean none
    | "array" => .zarray (.zany none) none
    | "object" => .zobject none
    | _ => .zany none
  let validator :=
    match schema.description with
    | some d => if d ≠ "" then validator.describe d else validator
    | none => validator
  if schema.required = some false then .zoptional validator none else validator

/-! ## The tool registry of src/tool-manager.ts

JavaScript function values passed to storeTool are identified with closed
source terms `FnSrc` together with their denotation; `functionBody =
f.toString()` and `new Function('return ' + functionBody)()` are then the
identity on `FnSrc` (exact for closure-free implementations, which are the
only ones whose source survives serialization). The JSON text layer
(TextEncoder/JSON.stringify and TextDecoder/JSON.parse) is abstracted away:
the object store holds the parsed descriptor record. -/

inductive FnSrc where
  | constFn (v : JsonV)
  | projFn (field : String)
  | idFn

/-- JavaScript object property lookup on tool arguments (keys unique). -/
def lookupArg : JsonObj → String → Option JsonV
  | .nil, _ => none
  | .cons k v rest, field => if k = field then some v else lookupArg rest field

/-- The behavior of a stored function implementation: a constant function,
a field projection (absent fields give undefined, modelled as null), or
the identity on the argument record. -/
def denoteFn : FnSrc → JsonObj → JsonV
  | .constFn v, _ => v
  | .projFn field, args => (lookupArg args field).getD JsonV.null
  | .idFn, args => .obj args

/-- The persisted tool descriptor (src/tool-manager.ts lines 13-19). -/
structure SerializedTool where
  name : String
  functionBody : FnSrc
  schema : List (String × SerializedToolSchema)
  templateType : Option String := none
  config : Option JsonObj := none

/-- The function values loadTool can hand back: a reconstructed source
function, or one of the two template closures carrying their config. The
api_call closure performs a network fetch and the transformation closure a
pure string operation; only their identity matters to the claims below. -/
inductive ToolImpl where
  | fromSource (src : FnSrc)
  | apiCall (config : JsonObj)
  | transformation (config : JsonObj)

structure RuntimeTool where
  name : String
  schema : List (String × ZodTy)
  implementation : ToolImpl

/-- createFunctionFromTemplate (src/tool-manager.ts lines 237-279): the
switch over the two template kinds, with the default arm throwing the
unknown-template error naming the type. -/
def createFunctionFromTemplate (templateType : String) (config : JsonObj) :
    Except String ToolImpl :=
  if templateType = "api_call" then .ok (.apiCall config)
  else if templateType = "transformation" then .ok (.transformation config)
  else .error ("Unknown template type: " ++ templateType)

/-- The body of loadTool after the object-store fetch (src/tool-manager.ts
lines 195-231): absence is the not-found error; otherwise decode the schema
per key, then dispatch on the JavaScript truthiness of templateType (absent
or empty string both take the direct function-reconstruction path; a
toString-produced source always re-parses, so that path cannot throw in
this model). -/
def loadToolCore (toolDataBinary : Option SerializedTool) (toolName : String) :
    Except String RuntimeTool :=
  match toolDataBinary with
  | none => .error ("Tool " ++ toolName ++ " not found")
  | some parsedTool =>
    let zodSchema := parsedTool.schema.map fun kv =>
      (kv.1, createZodValidatorFromSchema kv.2)
    match parsedTool.templateType with
    | some templateType =>
      if templateType ≠ "" then
        match createFunctionFromTemplate templateType (parsedTool.config.getD .nil) with
        | .ok implementation =>
          .ok { name := parsedTool.name, schema := zodSchema,
                implementation := implementation }
        | .error e => .error e
      else
        .ok { name := parsedTool.name, schema := zodSchema,
              implementation := .fromSource parsedTool.functionBody }
    | none =>
      .ok { name := parsedTool.name, schema := zodSchema,
            implementation := .fromSource parsedTool.functionBody }

/-- getObject of src/src/recall-client.ts (lines 244-252): any failure of
the underlying bucket read is caught, logged, and collapsed to undefined. -/
def getObject (resp : Except String (Option SerializedTool)) : Option SerializedTool :=
  match resp with
  | .ok result => result
  | .error _ => none

/-- The bucket, as the key-value namespace the registry sees. -/
abbrev Store := List (String × SerializedTool)

def storeGet (σ : Store) (key : String) : Option SerializedTool :=
  (σ.find? fun kv => kv.1 = key).map (·.2)

/-- addObject with overwrite: true — last write wins for the key. -/
def storePut (σ : Store) (key : String) (v : SerializedTool) : Store :=
  (σ.filter fun kv => kv.1 ≠ key) ++ [(key, v)]

/-- The descriptor storeTool serializes (src/tool-manager.ts lines 121-133):
per-key encoded schema, the implementation's source text, no template. -/
def storeToolDescriptor (toolName : String) (paramSchema : List (String × ZodTy))
    (functionImplementation : FnSrc) : SerializedTool :=
  { name := toolName,
    functionBody := functionImplementation,
    schema := paramSchema.map fun kv => (kv.1, extractZodSchemaInfo kv.2),
    templateType := none,
    config := none }

/-- storeTool (src/tool-manager.ts lines 116-144): put the serialized
descriptor at key tools/<name>, overwriting. -/
def storeTool (σ : Store) (toolName : String) (paramSchema : List (String × ZodTy))
    (functionImplementation : FnSrc) : Store :=
  storePut σ ("tools/" ++ toolName)
    (storeToolDescriptor toolName paramSchema functionImplementation)

/-- listTools (src/tool-manager.ts lines 284-290): all keys under tools/,
with the first occurrence of the prefix replaced by the empty string. -/
def listTools (σ : Store) : List String :=
  ((σ.map Prod.fst).filter fun key => strStartsWith key "tools/").map
    fun key => replaceFirst key "tools/" ""

/-! ## The guarded accessors of RecallClientManager

Both src/src/recall-client.ts (lines 54-64) and the sibling generation in
unnamed/part_001 (lines 52-66) define the same two poison-pill methods:
they throw their security-violation error before touching anything. The
manager state is irrelevant to them and abstracted to its network name. -/

structure RecallClientManager where
  network : String
deriving DecidableEq

def RecallClientManager.getEnvironmentVariables (_manager : RecallClientManager) :
    Except String (List (String × String)) :=
  .error "Security violation: This method is designed to prevent accidental exposure of sensitive environment variables."

def RecallClientManager.getPrivateKey (_manager : RecallClientManager) :
    Except String String :=
  .error "Security violation: This method is designed to prevent accidental exposure of private keys."

/-! ## Bounded hex-run machinery for the redaction pipeline

`chk l n` scans `l` carrying the length `n` of the pending consecutive
hex-digit run and fails as soon as a run would reach 64; `runEnd l n` is
the pending run length after `l`. A string passing `chk · 0` cannot contain
any 64 consecutive hex digits, hence no 64-hex-digit substring. Each of the
three replacement passes is shown to produce (or preserve) this bound. -/

def chk : List Char → Nat → Bool
  | [], _ => true
  | c :: cs, run =>
    if isHexChar c then decide (run + 1 ≤ 63) && chk cs (run + 1) else chk cs 0

def runEnd : List Char → Nat → Nat
  | [], run => run
  | c :: cs, run => runEnd cs (if isHexChar c then run + 1 else 0)

lemma chk_startNonhex (c : Char) (cs : List Char) (h : isHexChar c = false) (n : Nat) :
    chk (c :: cs) n = chk cs 0 := by
  simp [chk, h]

lemma chk_cons_hex {c : Char} (h : isHexChar c = true) (cs : List Char) (n : Nat) :
    chk (c :: cs) n = (decide (n + 1 ≤ 63) && chk cs (n + 1)) := by
  simp [chk, h]

lemma runEnd_startNonhex (c : Char) (cs : List Char) (h : isHexChar c = false) (n : Nat) :
    runEnd (c :: cs) n = runEnd cs 0 := by
  simp [runEnd, h]

lemma chk_append (a b : List Char) : ∀ n, chk (a ++ b) n = (chk a n && chk b (runEnd a n)) := by
  induction a with
  | nil => intro n; simp [chk, runEnd]
  | cons c cs ih =>
    intro n
    by_cases h : isHexChar c
    · simp [chk, runEnd, h, ih, Bool.and_assoc]
    · simp [chk, runEnd, h, ih]

lemma chk_mono (l : List Char) : ∀ m n, m ≤ n → chk l n = true → chk l m = true := by
  induction l with
  | nil => intros; simp [chk]
  | cons c cs ih =>
    intro m n hmn h
    by_cases hc : isHexChar c
    · simp only [chk, hc, if_true, Bool.and_eq_true, decide_eq_true_eq] at h ⊢
      exact ⟨by omega, ih _ _ (by omega) h.2⟩
    · simp only [chk, hc, if_false] at h ⊢
      exact h

lemma chk_of_short (l : List Char) : ∀ n, l.length + n ≤ 63 → chk l n = true := by
  induction l with
  | nil => intros; simp [chk]
  | cons c cs ih =>
    intro n h
    simp only [List.length_cons] at h
    by_cases hc : isHexChar c
    · simp only [chk, hc, if_true, Bool.and_eq_true, decide_eq_true_eq]
      exact ⟨by omega, ih _ (by omega)⟩
    · simp only [chk, hc, if_false]
      exact ih _ (by omega)

lemma chk_drop : ∀ (k : Nat) (l : List Char) (n : Nat), chk l n = true → chk (l.drop k) 0 = true := by
  intro k
  induction k with
  | zero => intro l n h; simpa using chk_mono l 0 n (Nat.zero_le _) h
  | succ k ih =>
    intro l n h
    match l with
    | [] => simp [chk]
    | c :: cs =>
      simp only [List.drop_succ_cons]
      by_cases hc : isHexChar c
      · simp only [chk, hc, if_true, Bool.and_eq_true] at h
        exact ih cs (n + 1) h.2
      · simp only [chk, hc, if_false] at h
        exact ih cs 0 h

lemma chk_hexrun_false (t : List Char) :
    t ≠ [] → (∀ c ∈ t, isHexChar c = true) → ∀ n, 63 < t.length + n → chk t n = false := by
  induction t with
  | nil => intro h; exact absurd rfl h
  | cons c cs ih =>
    intro _ hall n hlen
    have hc : isHexChar c = true := hall c (List.mem_cons_self _ _)
    rcases cs with _ | ⟨d, ds⟩
    · simp only [List.length_cons, List.length_nil] at hlen
      simp [chk, hc]
      omega
    · have hrec : chk (d :: ds) (n + 1) = false := by
        refine ih (by simp) (fun x hx => hall x (List.mem_cons_of_mem _ hx)) (n + 1) ?_
        simp only [List.length_cons] at hlen ⊢
        omega
      rw [chk_cons_hex hc, hrec, Bool.and_false]

lemma chk_no_hex64_infix (l t : List Char) (hl : chk l 0 = true)
    (h1 : t.length = 64) (h2 : ∀ c ∈ t, isHexChar c = true) : ¬ t <:+: l := by
  rintro ⟨u, v, huv⟩
  rw [← huv, chk_append, chk_append] at hl
  have hfalse : chk t (runEnd u 0) = false := by
    refine chk_hexrun_false t ?_ h2 _ ?_
    · intro hnil
      rw [hnil] at h1
      simp at h1
    · omega
  simp [hfalse] at hl

lemma chk_sentinelHex (n : Nat) : chk sentinelHex n = true := by
  simp only [sentinelHex]
  rw [chk_startNonhex _ _ (by decide)]
  decide

lemma runEnd_sentinelHex (n : Nat) : runEnd sentinelHex n = 0 := by
  simp only [sentinelHex]
  rw [runEnd_startNonhex _ _ (by decide)]
  decide

lemma chk_sentinelLong (n : Nat) : chk sentinelLong n = true := by
  simp only [sentinelLong]
  rw [chk_startNonhex _ _ (by decide)]
  decide

lemma runEnd_sentinelLong (n : Nat) : runEnd sentinelLong n = 0 := by
  simp only [sentinelLong]
  rw [runEnd_startNonhex _ _ (by decide)]
  decide

lemma hexPrefLen_cons_hex {c : Char} (h : isHexChar c = true) (cs : List Char) :
    hexPrefLen (c :: cs) = hexPrefLen cs + 1 := by
  simp [hexPrefLen, h]

/-- Pass 1 establishes the bound: the output of the hex-64 replacement
never contains 64 consecutive hex digits. The invariant disjunct says the
head run is either long enough to be replaced, or short enough to be safe
after the pending `n` digits. -/
lemma chk_replaceHex64Fuel :
    ∀ (fuel : Nat) (l : List Char) (n : Nat), l.length ≤ fuel →
      (64 ≤ hexPrefLen l ∨ n + hexPrefLen l ≤ 63) →
      chk (replaceHex64Fuel fuel l) n = true := by
  intro fuel
  induction fuel with
  | zero =>
    intro l n hl _
    have : l = [] := List.length_eq_zero.mp (Nat.le_zero.mp hl)
    subst this
    simp [replaceHex64Fuel, chk]
  | succ fuel ih =>
    intro l n hl hinv
    match l with
    | [] => simp [replaceHex64Fuel, chk]
    | c :: cs =>
      by_cases h64 : 64 ≤ hexPrefLen (c :: cs)
      · simp only [replaceHex64Fuel, if_pos h64]
        rw [chk_append, chk_sentinelHex, runEnd_sentinelHex, Bool.true_and]
        refine ih _ 0 ?_ ?_
        · rw [List.length_drop]
          simp only [List.length_cons] at hl ⊢
          omega
        · rcases le_or_lt 64 (hexPrefLen (List.drop 64 (c :: cs))) with h | h
          · exact Or.inl h
          · exact Or.inr (by omega)
      · have hn : n + hexPrefLen (c :: cs) ≤ 63 := hinv.resolve_left h64
        simp only [replaceHex64Fuel, if_neg h64]
        simp only [List.length_cons] at hl
        by_cases hc : isHexChar c
        · rw [hexPrefLen_cons_hex hc] at hn
          simp only [chk, hc, if_true, Bool.and_eq_true, decide_eq_true_eq]
          exact ⟨by omega, ih cs (n + 1) (by omega) (Or.inr (by omega))⟩
        · rw [chk_startNonhex _ _ (by simpa using hc)]
          refine ih cs 0 (by omega) ?_
          rcases le_or_lt 64 (hexPrefLen cs) with h | h
          · exact Or.inl h
          · exact Or.inr (by omega)

/-- Pass 2 (long-value replacement) preserves the bound. -/
lemma chk_replaceLongFuel :
    ∀ (fuel : Nat) (l : List Char) (n : Nat), l.length ≤ fuel →
      chk l n = true → chk (replaceLongFuel fuel l) n = true := by
  intro fuel
  induction fuel with
  | zero =>
    intro l n hl h
    have : l = [] := List.length_eq_zero.mp (Nat.le_zero.mp hl)
    subst this
    simp [replaceLongFuel, chk]
  | succ fuel ih =>
    intro l n hl h
    match l with
    | [] => simp [replaceLongFuel, chk]
    | c :: cs =>
      simp only [List.length_cons] at hl
      by_cases h32 : 32 ≤ plainPrefLen (c :: cs)
      · simp only [replaceLongFuel, if_pos h32]
        rw [chk_append, chk_sentinelLong, runEnd_sentinelLong, Bool.true_and]
        refine ih _ 0 ?_ (chk_drop _ _ n h)
        rw [List.length_drop]
        simp only [List.length_cons]
        omega
      · simp only [replaceLongFuel, if_neg h32]
        by_cases hc : isHexChar c
        · simp only [chk, hc, if_true, Bool.and_eq_true, decide_eq_true_eq] at h ⊢
          exact ⟨h.1, ih cs (n + 1) (by omega) h.2⟩
        · rw [chk_startNonhex _ _ (by simpa using hc)] at h ⊢
          exact ih cs 0 (by omega) h

lemma matchCI_head {a b : Char} {ps : List (Char × Char)} {l : List Char}
    (h : matchCI ((a, b) :: ps) l = true) : ∃ c cs, l = c :: cs ∧ (c = a ∨ c = b) := by
  match l with
  | [] => simp [matchCI] at h
  | c :: cs =>
    simp only [matchCI, Bool.and_eq_true, Bool.or_eq_true, decide_eq_true_eq] at h
    exact ⟨c, cs, rfl, h.1⟩

lemma matchOne_none_of_nomatch {pat : List (Char × Char)} {l : List Char}
    (h : matchCI pat l = false) : matchOne pat l = none := by
  unfold matchOne
  rw [if_neg (by simp [h])]

lemma matchOne_some {pat : List (Char × Char)} {l kw : List Char} {n : Nat}
    (h : matchOne pat l = some (kw, n)) :
    kw = l.take pat.length ∧ 1 ≤ n ∧ matchCI pat l = true := by
  have hci : matchCI pat l = true := by
    by_cases hc : matchCI pat l = true
    · exact hc
    · rw [matchOne_none_of_nomatch (by simpa using hc)] at h
      exact absurd h (by simp)
  unfold matchOne at h
  rw [if_pos hci] at h
  rcases hdrop : List.drop pat.length l with _ | ⟨c, r2⟩ <;> rw [hdrop] at h <;> dsimp only at h
  · exact absurd h (by simp)
  · by_cases heq : c = '='
    · rw [if_pos heq] at h
      by_cases hv : (r2.takeWhile isKVValChar).length = 0
      · rw [if_pos hv] at h
        exact absurd h (by simp)
      · rw [if_neg hv] at h
        have hpair := Option.some.inj h
        refine ⟨(congrArg Prod.fst hpair).symm, ?_, hci⟩
        have h2 := congrArg Prod.snd hpair
        simp only at h2
        omega
    · rw [if_neg heq] at h
      exact absurd h (by simp)

lemma matchOne_shape {a b : Char} {ps : List (Char × Char)} {l kw : List Char} {n : Nat}
    (ha : isHexChar a = false) (hb : isHexChar b = false) (hps : ps.length ≤ 62)
    (h : matchOne ((a, b) :: ps) l = some (kw, n)) :
    1 ≤ n ∧ ∃ a' ks, kw = a' :: ks ∧ isHexChar a' = false ∧ ks.length ≤ 62 := by
  obtain ⟨hkw, hn, hci⟩ := matchOne_some h
  obtain ⟨c, cs, rfl, hc⟩ := matchCI_head hci
  refine ⟨hn, c, cs.take ps.length, ?_, ?_, ?_⟩
  · rw [hkw, List.length_cons, List.take_succ_cons]
  · rcases hc with rfl | rfl
    · exact ha
    · exact hb
  · rw [List.length_take]
    omega

/-- Every keyword the alternation can match starts with a letter that is
not a hex digit (p/P, s/S, k/K, t/T) and is at most 63 characters long;
this is what keeps the kept `$1` keyword from extending a hex run. -/
lemma matchKV_shape {l kw : List Char} {n : Nat} (h : matchKV l = some (kw, n)) :
    1 ≤ n ∧ ∃ a ks, kw = a :: ks ∧ isHexChar a = false ∧ ks.length ≤ 62 := by
  unfold matchKV at h
  cases h1 : matchOne kwPrivateKey l with
  | some r =>
    rw [h1] at h
    dsimp only at h
    rw [h] at h1
    unfold kwPrivateKey at h1
    exact matchOne_shape (by decide) (by decide) (by decide) h1
  | none =>
    rw [h1] at h
    dsimp only at h
    cases h2 : matchOne kwSecret l with
    | some r =>
      rw [h2] at h
      dsimp only at h
      rw [h] at h2
      unfold kwSecret at h2
      exact matchOne_shape (by decide) (by decide) (by decide) h2
    | none =>
      rw [h2] at h
      dsimp only at h
      cases h3 : matchOne kwKey l with
      | some r =>
        rw [h3] at h
        dsimp only at h
        rw [h] at h3
        unfold kwKey at h3
        exact matchOne_shape (by decide) (by decide) (by decide) h3
      | none =>
        rw [h3] at h
        dsimp only at h
        cases h4 : matchOne kwToken l with
        | some r =>
          rw [h4] at h
          dsimp only at h
          rw [h] at h4
          unfold kwToken at h4
          exact matchOne_shape (by decide) (by decide) (by decide) h4
        | none =>
          rw [h4] at h
          dsimp only at h
          unfold kwPassword at h
          exact matchOne_shape (by decide) (by decide) (by decide) h

/-- Pass 3 (keyword=value replacement) preserves the bound: the kept
keyword starts with a non-hex letter and is short, and the injected
`=[REDACTED]` resets the run before and after. -/
lemma chk_replaceKVFuel :
    ∀ (fuel : Nat) (l : List Char) (n : Nat), l.length ≤ fuel →
      chk l n = true → chk (replaceKVFuel fuel l) n = true := by
  intro fuel
  induction fuel with
  | zero =>
    intro l n hl h
    have : l = [] := List.length_eq_zero.mp (Nat.le_zero.mp hl)
    subst this
    simp [replaceKVFuel, chk]
  | succ fuel ih =>
    intro l n hl h
    match l with
    | [] => simp [replaceKVFuel, chk]
    | c :: cs =>
      simp only [List.length_cons] at hl
      cases hm : matchKV (c :: cs) with
      | some r =>
        obtain ⟨kw, nn⟩ := r
        obtain ⟨hn1, a, ks, rfl, ha, hks⟩ := matchKV_shape hm
        simp only [replaceKVFuel, hm]
        rw [List.cons_append, List.cons_append, chk_startNonhex _ _ ha, List.append_assoc,
          chk_append, chk_of_short ks 0 (by omega), Bool.true_and, chk_append]
        have hrt : chk redactedTail (runEnd ks 0) = true := by
          simp only [redactedTail]
          rw [chk_startNonhex _ _ (by decide)]
          decide
        have hre : runEnd redactedTail (runEnd ks 0) = 0 := by
          simp only [redactedTail]
          rw [runEnd_startNonhex _ _ (by decide)]
          decide
        rw [hrt, hre, Bool.true_and]
        refine ih _ 0 ?_ (chk_drop _ _ n h)
        rw [List.length_drop]
        simp only [List.length_cons]
        omega
      | none =>
        simp only [replaceKVFuel, hm]
        by_cases hc : isHexChar c
        · simp only [chk, hc, if_true, Bool.and_eq_true, decide_eq_true_eq] at h ⊢
          exact ⟨h.1, ih cs (n + 1) (by omega) h.2⟩
        · rw [chk_startNonhex _ _ (by simpa using hc)] at h ⊢
          exact ih cs 0 (by omega) h

/-- The full pipeline output satisfies the bound. -/
lemma chk_redactChars (l : List Char) : chk (redactChars l) 0 = true := by
  unfold redactChars replaceKV replaceLong replaceHex64
  refine chk_replaceKVFuel _ _ 0 le_rfl ?_
  refine chk_replaceLongFuel _ _ 0 le_rfl ?_
  refine chk_replaceHex64Fuel _ _ 0 le_rfl ?_
  rcases le_or_lt 64 (hexPrefLen l) with h | h
  · exact Or.inl h
  · exact Or.inr (by omega)

/-! ## Inversion lemmas for the secret store -/

lemma parseAndStore_ok {st : SecretSt} {content : String} {st1 : SecretSt}
    (h : parseAndStore st content = .ok st1) :
    ∃ k, lookupLast (parseEnvFile content) "RECALL_PRIVATE_KEY" = some k ∧ k ≠ "" ∧
      st1 = { st with secretBuffer := some k,
                      envPrivateKey := some "[REDACTED]",
                      secretLoaded := true } := by
  unfold parseAndStore at h
  rcases hlk : lookupLast (parseEnvFile content) "RECALL_PRIVATE_KEY" with _ | ek <;>
    rw [hlk] at h <;> dsimp only at h
  · exact absurd h (by simp)
  · by_cases hek : ek ≠ ""
    · rw [if_pos hek] at h
      exact ⟨ek, rfl, hek, (Except.ok.inj h).symm⟩
    · rw [if_neg hek] at h
      exact absurd h (by simp)

lemma loadFromEnvFile_ok {hash : String → String} {st st1 : SecretSt}
    (h : loadFromEnvFile hash st = .ok st1) :
    ∃ content k, st.envFileContent = some content ∧
      lookupLast (parseEnvFile content) "RECALL_PRIVATE_KEY" = some k ∧ k ≠ "" ∧
      st1 = { st with secretBuffer := some k,
                      envPrivateKey := some "[REDACTED]",
                      secretLoaded := true } := by
  obtain ⟨sb, sl, ep, efc, eh⟩ := st
  rcases efc with _ | content
  · rw [show loadFromEnvFile hash ⟨sb, sl, ep, none, eh⟩
        = .error (.cannotProceed .fileReadError) from rfl] at h
    exact absurd h (by simp)
  · rcases eh with _ | hsh
    · rw [show loadFromEnvFile hash ⟨sb, sl, ep, some content, none⟩
          = parseAndStore ⟨sb, sl, ep, some content, none⟩ content from rfl] at h
      obtain ⟨k, h1, h2, h3⟩ := parseAndStore_ok h
      exact ⟨content, k, rfl, h1, h2, h3⟩
    · unfold loadFromEnvFile at h
      dsimp only at h
      by_cases hc : hsh ≠ "" ∧ hash content ≠ hsh
      · rw [if_pos hc] at h
        exact absurd h (by simp)
      · rw [if_neg hc] at h
        obtain ⟨k, h1, h2, h3⟩ := parseAndStore_ok h
        exact ⟨content, k, rfl, h1, h2, h3⟩

lemma loadFromEnvFile_ok_of {hash : String → String} {st : SecretSt} {content k : String}
    (hfc : st.envFileContent = some content)
    (hhash : ∀ h, st.expectedEnvHash = some h → h ≠ "" → hash content = h)
    (hlk : lookupLast (parseEnvFile content) "RECALL_PRIVATE_KEY" = some k) (hkne : k ≠ "") :
    loadFromEnvFile hash st = .ok { st with secretBuffer := some k,
                                            envPrivateKey := some "[REDACTED]",
                                            secretLoaded := true } := by
  obtain ⟨sb, sl, ep, efc, eh⟩ := st
  simp only at hfc
  subst hfc
  have hps : parseAndStore ⟨sb, sl, ep, some content, eh⟩ content
      = .ok { secretBuffer := some k, secretLoaded := true,
              envPrivateKey := some "[REDACTED]",
              envFileContent := some content, expectedEnvHash := eh } := by
    unfold parseAndStore
    rw [hlk]
    dsimp only
    rw [if_pos hkne]
  rcases eh with _ | hsh
  · exact hps
  · unfold loadFromEnvFile
    dsimp only
    rw [if_neg ?_]
    · exact hps
    · rintro ⟨h1, h2⟩
      exact h2 (hhash hsh rfl h1)

lemma loadFromEnvFile_error_of_nokey {hash : String → String} {st : SecretSt} {content : String}
    (hfc : st.envFileContent = some content)
    (hlk : lookupLast (parseEnvFile content) "RECALL_PRIVATE_KEY" = none ∨
           lookupLast (parseEnvFile content) "RECALL_PRIVATE_KEY" = some "") :
    ∃ reason, loadFromEnvFile hash st = .error (.cannotProceed reason) := by
  obtain ⟨sb, sl, ep, efc, eh⟩ := st
  simp only at hfc
  subst hfc
  have hps : parseAndStore ⟨sb, sl, ep, some content, eh⟩ content
      = .error (.cannotProceed .keyMissingInFile) := by
    unfold parseAndStore
    rcases hlk with h | h <;> simp [h]
  rcases eh with _ | hsh
  · exact ⟨.keyMissingInFile, hps⟩
  · unfold loadFromEnvFile
    dsimp only
    by_cases hc : hsh ≠ "" ∧ hash content ≠ hsh
    · rw [if_pos hc]
      exact ⟨.integrityMismatch, rfl⟩
    · rw [if_neg hc]
      exact ⟨.keyMissingInFile, hps⟩

/-- The external-environment branch of loadSecrets. -/
lemma loadSecrets_external {hash : String → String} {st : SecretSt} {k : String}
    (hnl : st.secretLoaded = false) (hk : st.envPrivateKey = some k) (hkne : k ≠ "") :
    loadSecrets hash st = .ok { st with secretBuffer := some k,
                                        envPrivateKey := some "[REDACTED]",
                                        secretLoaded := true } := by
  obtain ⟨sb, sl, ep, efc, eh⟩ := st
  simp only at hnl hk
  subst hnl
  subst hk
  unfold loadSecrets
  rw [if_neg (by simp)]
  dsimp only
  rw [if_pos hkne]

/-- An unloaded state with a falsy environment slot falls through to the
.env-file branch. -/
lemma loadSecrets_unloaded {hash : String → String} {st : SecretSt}
    (hnl : st.secretLoaded = false)
    (henv : st.envPrivateKey = none ∨ st.envPrivateKey = some "") :
    loadSecrets hash st = loadFromEnvFile hash st := by
  obtain ⟨sb, sl, ep, efc, eh⟩ := st
  simp only at hnl henv
  subst hnl
  unfold loadSecrets
  rw [if_neg (by simp)]
  rcases henv with h | h <;> subst h
  · rfl
  · dsimp only
    rw [if_neg (by simp)]

/-! ## Claim theorems -/

/-- C7: Hex-secret string redaction. For every input string `s` that
contains a 64-hex-digit substring `t`, the string branch of redactSensitive
returns a string in which `t` does not appear verbatim (the whole pipeline
output cannot contain any 64 consecutive hex digits). -/
theorem c7_hex_redaction (s t : String) (h1 : t.data.length = 64)
    (h2 : ∀ c ∈ t.data, isHexChar c = true) (_h3 : t.data <:+: s.data) :
    ¬ t.data <:+: (redactString s).data :=
  chk_no_hex64_infix _ _ (chk_redactChars s.data) h1 h2

theorem c7_hex_redaction_witness :
    ("0123456789abcdef0123456789abcdef0123456789ABCDEF0123456789abcdef" : String).data.length
        = 64 ∧
    (∀ c ∈ ("0123456789abcdef0123456789abcdef0123456789ABCDEF0123456789abcdef" : String).data,
        isHexChar c = true) ∧
    ¬ ("0123456789abcdef0123456789abcdef0123456789ABCDEF0123456789abcdef" : String).data <:+:
        (redactString "0123456789abcdef0123456789abcdef0123456789ABCDEF0123456789abcdef").data :=
  ⟨by decide, by decide,
    c7_hex_redaction _ _ (by decide) (by decide) (List.infix_refl _)⟩

/-- C2 counterexample: the key "password" contains the claimed sensitive
keywords "pass" and "password", and its string value "secretpw" has length
8 ≤ 8, so the claim requires the fixed short mask; but redactSensitive (the
cited src/env.ts function) only masks keys containing 'key' or 'secret',
so it recurses into the value and returns the mapping unchanged. -/
theorem c2_structured_redaction_counterexample :
    redactSensitive (JsonV.obj (.cons "password" (.str "secretpw") .nil))
        = JsonV.obj (.cons "password" (.str "secretpw") .nil) ∧
    "secretpw" ≠ "********" ∧ isSensitiveKey "password" = true := by
  refine ⟨rfl, by decide, by decide⟩

/-- C2 (amended): the structured redactor of src/env.ts (redactSensitive)
masks exactly the entries whose lowercased key contains 'key' or 'secret',
always with the fixed mask '[REDACTED]' and regardless of value length;
the length-dependent masks over the full keyword list (short values become
'********', longer ones first4...last4) are implemented by the separate
sanitizeSecrets helper (unnamed/part_000), which applies them to
string-valued entries. -/
lemma redactEntries_toList : ∀ entries : JsonObj,
    (redactEntries entries).toList
      = entries.toList.map fun kv =>
          (kv.1, if sensObjKey kv.1 then JsonV.str "[REDACTED]" else redactSensitive kv.2)
  | .nil => rfl
  | .cons k v rest => by
    simp only [redactEntries, JsonObj.toList, List.map_cons, redactEntries_toList rest]

lemma sanitizeSecrets_toList : ∀ entries : JsonObj,
    (sanitizeSecrets entries).toList
      = entries.toList.map fun kv =>
          (kv.1,
            if isSensitiveKey kv.1 then
              match kv.2 with
              | .str value => JsonV.str (maskValue value)
              | _ => kv.2
            else kv.2)
  | .nil => rfl
  | .cons k v rest => by
    simp only [sanitizeSecrets, JsonObj.toList, List.map_cons, sanitizeSecrets_toList rest]

theorem c2_structured_redaction_amended (entries : JsonObj) (k : String) (v : JsonV)
    (hmem : (k, v) ∈ entries.toList) :
    (sensObjKey k = true →
      (k, JsonV.str "[REDACTED]") ∈ (objEntries (redactSensitive (.obj entries))).toList) ∧
    (∀ s, v = .str s → isSensitiveKey k = true →
      (k, JsonV.str (maskValue s)) ∈ (sanitizeSecrets entries).toList) := by
  constructor
  · intro hs
    show (k, JsonV.str "[REDACTED]") ∈ (redactEntries entries).toList
    rw [redactEntries_toList]
    exact List.mem_map.mpr ⟨(k, v), hmem, by simp [hs]⟩
  · intro s hv hk
    subst hv
    rw [sanitizeSecrets_toList]
    exact List.mem_map.mpr ⟨(k, .str s), hmem, by simp [hk]⟩

theorem c2_structured_redaction_amended_witness :
    (("apiKey", JsonV.str "[REDACTED]")
        ∈ (objEntries (redactSensitive (JsonV.obj (.cons "apiKey" (.str "x") .nil)))).toList) ∧
    (("api_token", JsonV.str (maskValue "abcdefghijkl"))
        ∈ (sanitizeSecrets (.cons "api_token" (.str "abcdefghijkl") .nil)).toList) ∧
    maskValue "abcdefghijkl" = "abcd...ijkl" ∧ maskValue "short" = "********" := by
  refine ⟨?_, ?_, by decide, by decide⟩
  · exact (c2_structured_redaction_amended _ "apiKey" (.str "x")
      (by simp [JsonObj.toList])).1 (by decide)
  · exact (c2_structured_redaction_amended (.cons "api_token" (.str "abcdefghijkl") .nil)
      "api_token" (.str "abcdefghijkl") (by simp [JsonObj.toList])).2 "abcdefghijkl" rfl
      (by decide)

/-- C6: Poison-pill accessors. RecallClientManager.getPrivateKey and
RecallClientManager.getEnvironmentVariables fail unconditionally with their
security-violation errors, in every manager state, and never return a
value. -/
theorem c6_poison_pill_accessors (manager : RecallClientManager) :
    manager.getPrivateKey
        = .error "Security violation: This method is designed to prevent accidental exposure of private keys." ∧
    manager.getEnvironmentVariables
        = .error "Security violation: This method is designed to prevent accidental exposure of sensitive environment variables." ∧
    (∀ key, manager.getPrivateKey ≠ .ok key) ∧
    (∀ vars, manager.getEnvironmentVariables ≠ .ok vars) := by
  refine ⟨rfl, rfl, fun key h => ?_, fun vars h => ?_⟩ <;>
    simp [RecallClientManager.getPrivateKey, RecallClientManager.getEnvironmentVariables] at h

/-- C9: storage errors are indistinguishable from absence. getObject maps
any storage-layer failure to `none`, and loadTool turns that into the same
tool-not-found error a genuinely absent key produces. -/
theorem c9_storage_error_as_absence (e : String) (toolName : String) :
    getObject (.error e) = none ∧
    loadToolCore (getObject (.error e)) toolName
        = .error ("Tool " ++ toolName ++ " not found") ∧
    loadToolCore (getObject (.error e)) toolName
        = loadToolCore (getObject (.ok none)) toolName :=
  ⟨rfl, rfl, rfl⟩

/-- C3: Single consumption of the credential. After any successful
loadSecrets (from a well-formed state, where the loaded flag tracks the
buffer), the first getPrivateKey returns the raw credential and the second
one, without an intervening load, fails with the credential-unavailable
error — the credential is never returned twice. -/
theorem c3_single_consumption (hash : String → String) (st st1 : SecretSt)
    (hwf : st.secretLoaded = st.secretBuffer.isSome)
    (hload : loadSecrets hash st = .ok st1) :
    ∃ key st2, getPrivateKey st1 = .ok (key, st2) ∧
      getPrivateKey st2 = .error "RECALL_PRIVATE_KEY is required but not available." := by
  have hbuf : ∃ k, st1.secretBuffer = some k := by
    unfold loadSecrets at hload
    by_cases hld : st.secretLoaded = true
    · rw [if_pos hld] at hload
      obtain rfl := Except.ok.inj hload
      rw [hld] at hwf
      obtain ⟨k, hk⟩ := Option.isSome_iff_exists.mp hwf.symm
      exact ⟨k, hk⟩
    · rw [if_neg hld] at hload
      rcases henv : st.envPrivateKey with _ | ek <;> rw [henv] at hload <;> dsimp only at hload
      · obtain ⟨_, k, _, _, _, rfl⟩ := loadFromEnvFile_ok hload
        exact ⟨k, rfl⟩
      · by_cases hek : ek ≠ ""
        · rw [if_pos hek] at hload
          obtain rfl := Except.ok.inj hload
          exact ⟨ek, rfl⟩
        · rw [if_neg hek] at hload
          obtain ⟨_, k, _, _, _, rfl⟩ := loadFromEnvFile_ok hload
          exact ⟨k, rfl⟩
  obtain ⟨k, hk⟩ := hbuf
  refine ⟨k, { st1 with secretBuffer := none, secretLoaded := false }, ?_, ?_⟩
  · unfold getPrivateKey
    rw [hk]
  · unfold getPrivateKey
    rfl

theorem c3_single_consumption_witness :
    ∃ key st2,
      getPrivateKey { secretBuffer := some "0xabc", secretLoaded := true,
                      envPrivateKey := some "[REDACTED]", envFileContent := none,
                      expectedEnvHash := none } = .ok (key, st2) ∧
      getPrivateKey st2 = .error "RECALL_PRIVATE_KEY is required but not available." :=
  c3_single_consumption id
    { secretBuffer := none, secretLoaded := false, envPrivateKey := some "0xabc",
      envFileContent := none, expectedEnvHash := none } _ rfl rfl

/-- C5: Credential load priority and slot scrubbing. From an unloaded
state: a truthy process-env slot wins and becomes the buffer; otherwise a
non-empty RECALL_PRIVATE_KEY parsed from the .env file (when its optional
integrity hash passes) becomes the buffer; when neither source yields a
non-empty value the load fails with the wrapped missing-credential error;
and every success overwrites the env slot with the '[REDACTED]'
placeholder. -/
theorem c5_load_priority_and_scrub (hash : String → String) (st : SecretSt)
    (hnl : st.secretLoaded = false) :
    (∀ k, st.envPrivateKey = some k → k ≠ "" →
      loadSecrets hash st = .ok { st with secretBuffer := some k,
                                          envPrivateKey := some "[REDACTED]",
                                          secretLoaded := true }) ∧
    (∀ content k, (st.envPrivateKey = none ∨ st.envPrivateKey = some "") →
      st.envFileContent = some content →
      (∀ h, st.expectedEnvHash = some h → h ≠ "" → hash content = h) →
      lookupLast (parseEnvFile content) "RECALL_PRIVATE_KEY" = some k → k ≠ "" →
      loadSecrets hash st = .ok { st with secretBuffer := some k,
                                          envPrivateKey := some "[REDACTED]",
                                          secretLoaded := true }) ∧
    ((st.envPrivateKey = none ∨ st.envPrivateKey = some "") →
      (st.envFileContent = none ∨
        ∃ content, st.envFileContent = some content ∧
          (lookupLast (parseEnvFile content) "RECALL_PRIVATE_KEY" = none ∨
           lookupLast (parseEnvFile content) "RECALL_PRIVATE_KEY" = some "")) →
      ∃ reason, loadSecrets hash st = .error (.cannotProceed reason)) ∧
    (∀ st1, loadSecrets hash st = .ok st1 → st1.envPrivateKey = some "[REDACTED]") := by
  refine ⟨?_, ?_, ?_, ?_⟩
  · intro k hk hkne
    exact loadSecrets_external hnl hk hkne
  · intro content k henv hfc hhash hlk hkne
    rw [loadSecrets_unloaded hnl henv]
    exact loadFromEnvFile_ok_of hfc hhash hlk hkne
  · intro henv hfile
    rw [loadSecrets_unloaded hnl henv]
    rcases hfile with hnone | ⟨content, hfc, hlk⟩
    · refine ⟨.fileReadError, ?_⟩
      unfold loadFromEnvFile
      rw [hnone]
    · exact loadFromEnvFile_error_of_nokey hfc hlk
  · intro st1 hload
    unfold loadSecrets at hload
    rw [hnl, if_neg (by simp)] at hload
    rcases henv : st.envPrivateKey with _ | ek <;> rw [henv] at hload <;> dsimp only at hload
    · obtain ⟨_, _, _, _, _, rfl⟩ := loadFromEnvFile_ok hload
      rfl
    · by_cases hek : ek ≠ ""
      · rw [if_pos hek] at hload
        obtain rfl := Except.ok.inj hload
        rfl
      · rw [if_neg hek] at hload
        obtain ⟨_, _, _, _, _, rfl⟩ := loadFromEnvFile_ok hload
        rfl

theorem c5_load_priority_and_scrub_witness :
    loadSecrets id { secretBuffer := none, secretLoaded := false,
                     envPrivateKey := some "extkey", envFileContent := none,
                     expectedEnvHash := none }
        = .ok { secretBuffer := some "extkey", secretLoaded := true,
                envPrivateKey := some "[REDACTED]", envFileContent := none,
                expectedEnvHash := none } ∧
    loadSecrets id { secretBuffer := none, secretLoaded := false, envPrivateKey := none,
                     envFileContent := some "RECALL_PRIVATE_KEY=filekey",
                     expectedEnvHash := none }
        = .ok { secretBuffer := some "filekey", secretLoaded := true,
                envPrivateKey := some "[REDACTED]",
                envFileContent := some "RECALL_PRIVATE_KEY=filekey",
                expectedEnvHash := none } ∧
    (∃ reason,
      loadSecrets id { secretBuffer := none, secretLoaded := false, envPrivateKey := none,
                       envFileContent := none, expectedEnvHash := none }
          = .error (.cannotProceed reason)) := by
  refine ⟨?_, ?_, ?_⟩
  · exact (c5_load_priority_and_scrub id _ rfl).1 "extkey" rfl (by decide)
  · exact (c5_load_priority_and_scrub id _ rfl).2.1 "RECALL_PRIVATE_KEY=filekey" "filekey"
      (Or.inl rfl) rfl (fun h hcontra => by simp at hcontra) (by decide) (by decide)
  · exact (c5_load_priority_and_scrub id _ rfl).2.2.1 (Or.inl rfl) (Or.inl rfl)

/-- C10: load is idempotent while loaded. When the loaded flag is set,
loadSecrets returns the state unchanged (no source is consulted, the
buffer and the env slot are untouched); after a getPrivateKey consume the
flag is cleared and the buffer released, so a subsequent load re-reads the
sources (shown for a truthy env slot). -/
theorem c10_load_idempotent_while_loaded (hash : String → String) (st : SecretSt) :
    (st.secretLoaded = true → loadSecrets hash st = .ok st) ∧
    (∀ key st2, getPrivateKey st = .ok (key, st2) →
      st2.secretLoaded = false ∧ st2.secretBuffer = none ∧
      (∀ k, st2.envPrivateKey = some k → k ≠ "" →
        loadSecrets hash st2 = .ok { st2 with secretBuffer := some k,
                                              envPrivateKey := some "[REDACTED]",
                                              secretLoaded := true })) := by
  constructor
  · intro hld
    unfold loadSecrets
    rw [if_pos hld]
  · intro key st2 hconsume
    unfold getPrivateKey at hconsume
    rcases hb : st.secretBuffer with _ | k <;> rw [hb] at hconsume <;> dsimp only at hconsume
    · exact absurd hconsume (by simp)
    · have hpair := Except.ok.inj hconsume
      have hst2 : st2 = { st with secretBuffer := none, secretLoaded := false } :=
        (congrArg Prod.snd hpair).symm
      subst hst2
      exact ⟨rfl, rfl, fun k' hk' hkne' => loadSecrets_external rfl hk' hkne'⟩

theorem c10_load_idempotent_while_loaded_witness :
    loadSecrets id { secretBuffer := some "k1", secretLoaded := true,
                     envPrivateKey := some "envk", envFileContent := none,
                     expectedEnvHash := none }
        = .ok { secretBuffer := some "k1", secretLoaded := true,
                envPrivateKey := some "envk", envFileContent := none,
                expectedEnvHash := none } ∧
    loadSecrets id { secretBuffer := none, secretLoaded := false,
                     envPrivateKey := some "envk", envFileContent := none,
                     expectedEnvHash := none }
        = .ok { secretBuffer := some "envk", secretLoaded := true,
                envPrivateKey := some "[REDACTED]", envFileContent := none,
                expectedEnvHash := none } := by
  constructor
  · exact (c10_load_idempotent_while_loaded id _).1 rfl
  · exact ((c10_load_idempotent_while_loaded id
      { secretBuffer := some "k1", secretLoaded := true, envPrivateKey := some "envk",
        envFileContent := none, expectedEnvHash := none }).2 "k1" _ rfl).2.2 "envk" rfl
      (by decide)

/-! ## Helper view of the schema decoder -/

/-- The switch of createZodValidatorFromSchema as a named function. -/
def baseValidatorOfType (ty : String) : ZodTy :=
  match ty with
  | "string" => .zstring none
  | "number" => .znumber none
  | "boolean" => .zboolean none
  | "array" => .zarray (.zany none) none
  | "object" => .zobject none
  | _ => .zany none

/-- The truthy-description step of createZodValidatorFromSchema. -/
def applyDescription (validator : ZodTy) (d : Option String) : ZodTy :=
  match d with
  | some s => if s ≠ "" then validator.describe s else validator
  | none => validator

lemma createZodValidatorFromSchema_eq (schema : SerializedToolSchema) :
    createZodValidatorFromSchema schema =
      if schema.required = some false then
        .zoptional (applyDescription (baseValidatorOfType schema.type) schema.description) none
      else applyDescription (baseValidatorOfType schema.type) schema.description := by
  unfold createZodValidatorFromSchema baseValidatorOfType applyDescription
  rfl

lemma isOptional_describe (v : ZodTy) (s : String) : (v.describe s).isOptional = v.isOptional := by
  cases v <;> rfl

lemma extract_type_describe (v : ZodTy) (s : String) :
    (extractZodSchemaInfo (v.describe s)).type = (extractZodSchemaInfo v).type := by
  cases v <;> rfl

lemma isOptional_applyDescription (v : ZodTy) (d : Option String) :
    (applyDescription v d).isOptional = v.isOptional := by
  rcases d with _ | s
  · rfl
  · unfold applyDescription
    dsimp only
    by_cases hs : s ≠ ""
    · rw [if_pos hs, isOptional_describe]
    · rw [if_neg hs]

lemma extract_type_applyDescription (v : ZodTy) (d : Option String) :
    (extractZodSchemaInfo (applyDescription v d)).type = (extractZodSchemaInfo v).type := by
  rcases d with _ | s
  · rfl
  · unfold applyDescription
    dsimp only
    by_cases hs : s ≠ ""
    · rw [if_pos hs, extract_type_describe]
    · rw [if_neg hs]

/-- The five instanceof checks of extractZodSchemaInfo. -/
def recognizedKind : ZodTy → Bool
  | .zstring _ | .znumber _ | .zboolean _ | .zarray _ _ | .zobject _ => true
  | _ => false

/-- C1 counterexample: z.instanceof(...) — used in the repository's shared
parameter schemas — is an unrecognized kind that rejects undefined.
Encoding it yields type 'unknown' with no required field, and decoding
that yields z.any(), which accepts undefined; so the decoded validator's
required/optional flag differs from the original's, refuting the claimed
round-trip in exactly the advertised unrecognized-kind case. -/
theorem c1_schema_codec_counterexample :
    ¬ (((createZodValidatorFromSchema
          (extractZodSchemaInfo (ZodTy.zinstanceOf none))).isOptional
            = (ZodTy.zinstanceOf none).isOptional) ∧
       ((extractZodSchemaInfo (createZodValidatorFromSchema
          (extractZodSchemaInfo (ZodTy.zinstanceOf none)))).type
            = (extractZodSchemaInfo (ZodTy.zinstanceOf none)).type)) := by
  decide

/-- C1 (amended): the coarse type tag always round-trips through the
codec; the required/optional flag round-trips whenever the validator is of
a recognized kind (string, number, boolean, array, object) or already
accepts undefined (an optional wrapper or z.any()). For an unrecognized
kind that rejects undefined (e.g. z.instanceof), decode returns z.any(),
which accepts undefined although the original did not. -/
theorem c1_schema_codec_amended (v : ZodTy) :
    (extractZodSchemaInfo (createZodValidatorFromSchema (extractZodSchemaInfo v))).type
        = (extractZodSchemaInfo v).type ∧
    ((recognizedKind v = true ∨ v.isOptional = true) →
      (createZodValidatorFromSchema (extractZodSchemaInfo v)).isOptional = v.isOptional) := by
  have hreq : ∀ w : ZodTy, (extractZodSchemaInfo w).required ≠ some false := by
    intro w
    cases w <;> simp [extractZodSchemaInfo, ZodTy.isOptional]
  rw [createZodValidatorFromSchema_eq, if_neg (hreq v)]
  constructor
  · rw [extract_type_applyDescription]
    cases v <;> rfl
  · intro hv
    rw [isOptional_applyDescription]
    cases v with
    | zoptional i d => rfl
    | zany d => rfl
    | zinstanceOf d =>
      rcases hv with h | h <;> simp [recognizedKind, ZodTy.isOptional] at h
    | zstring d => rfl
    | znumber d => rfl
    | zboolean d => rfl
    | zarray e d => rfl
    | zobject d => rfl

theorem c1_schema_codec_amended_witness :
    ((extractZodSchemaInfo (createZodValidatorFromSchema
        (extractZodSchemaInfo (ZodTy.zoptional (.zstring none) none)))).type
      = (extractZodSchemaInfo (ZodTy.zoptional (.zstring none) none)).type) ∧
    ((createZodValidatorFromSchema
        (extractZodSchemaInfo (ZodTy.zoptional (.zstring none) none))).isOptional
      = (ZodTy.zoptional (.zstring none) none).isOptional) :=
  ⟨(c1_schema_codec_amended _).1, (c1_schema_codec_amended _).2 (Or.inr rfl)⟩

/-! ## Store round-trip lemmas -/

lemma storeGet_storePut (σ : Store) (key : String) (v : SerializedTool) :
    storeGet (storePut σ key v) key = some v := by
  unfold storeGet storePut
  simp [List.find?_append]


lemma data_append (s t : String) : (s ++ t).data = s.data ++ t.data := by
  obtain ⟨sd⟩ := s
  obtain ⟨td⟩ := t
  rfl

lemma isPrefixOf_self_append (p t : List Char) : p.isPrefixOf (p ++ t) = true := by
  induction p with
  | nil => simp
  | cons c cs ih => simp [List.isPrefixOf_cons₂, ih]

lemma replaceFirstChars_self_append (p rep t : List Char) (hp : p ≠ []) :
    replaceFirstChars p rep (p ++ t) = rep ++ t := by
  match p, hp with
  | c :: cs, _ =>
    rw [List.cons_append, replaceFirstChars, if_pos ?_]
    · rw [← List.cons_append, List.drop_left]
    · rw [← List.cons_append]
      exact isPrefixOf_self_append _ _

/-- The behavior a runtime tool's invoke exposes, where it is pure: a
reconstructed source function denotes; the two template closures have
effectful or unmodelled bodies. -/
def invokeBehavior : ToolImpl → Option (JsonObj → JsonV)
  | .fromSource src => some (denoteFn src)
  | _ => none

/-- C4: store-then-load round trip. Over an object store behaving as a
key-value map, storeTool t s f followed by loadTool t yields a runtime
tool named t whose schema is s decoded-after-encoded per key and whose
implementation is the stored source function — hence it has f's behavior
on every argument — and listTools afterwards includes t. -/
theorem c4_store_load_roundtrip (σ : Store) (toolName : String)
    (paramSchema : List (String × ZodTy)) (impl : FnSrc) :
    loadToolCore (getObject (.ok (storeGet (storeTool σ toolName paramSchema impl)
        ("tools/" ++ toolName)))) toolName
      = .ok { name := toolName,
              schema := paramSchema.map fun kv =>
                (kv.1, createZodValidatorFromSchema (extractZodSchemaInfo kv.2)),
              implementation := .fromSource impl } ∧
    (∀ tool, loadToolCore (getObject (.ok (storeGet (storeTool σ toolName paramSchema impl)
        ("tools/" ++ toolName)))) toolName = .ok tool →
      ∃ f, invokeBehavior tool.implementation = some f ∧
        ∀ args, f args = denoteFn impl args) ∧
    toolName ∈ listTools (storeTool σ toolName paramSchema impl) := by
  have hget : storeGet (storeTool σ toolName paramSchema impl) ("tools/" ++ toolName)
      = some (storeToolDescriptor toolName paramSchema impl) := storeGet_storePut ..
  have hload : loadToolCore (getObject (.ok (storeGet (storeTool σ toolName paramSchema impl)
      ("tools/" ++ toolName)))) toolName
      = .ok { name := toolName,
              schema := paramSchema.map fun kv =>
                (kv.1, createZodValidatorFromSchema (extractZodSchemaInfo kv.2)),
              implementation := .fromSource impl } := by
    rw [show getObject (.ok (storeGet (storeTool σ toolName paramSchema impl)
        ("tools/" ++ toolName))) = storeGet (storeTool σ toolName paramSchema impl)
        ("tools/" ++ toolName) from rfl, hget]
    unfold loadToolCore storeToolDescriptor
    dsimp only
    rw [List.map_map]
    rfl
  refine ⟨hload, ?_, ?_⟩
  · intro tool htool
    rw [hload] at htool
    obtain rfl := (Except.ok.inj htool).symm
    exact ⟨denoteFn impl, rfl, fun args => rfl⟩
  · unfold listTools storeTool storePut
    refine List.mem_map.mpr ⟨"tools/" ++ toolName, List.mem_filter.mpr ⟨?_, ?_⟩, ?_⟩
    · exact List.mem_map.mpr ⟨("tools/" ++ toolName,
        storeToolDescriptor toolName paramSchema impl),
        List.mem_append_right _ (List.mem_singleton.mpr rfl), rfl⟩
    · unfold strStartsWith
      rw [data_append]
      exact isPrefixOf_self_append _ _
    · unfold replaceFirst
      rw [data_append, replaceFirstChars_self_append _ _ _ (by decide)]
      obtain ⟨td⟩ := toolName
      rfl

theorem c4_store_load_roundtrip_witness :
    (∃ f, invokeBehavior (ToolImpl.fromSource .idFn) = some f ∧
      ∀ args, f args = denoteFn .idFn args) ∧
    "echo" ∈ listTools (storeTool [] "echo" [("x", ZodTy.zstring none)] .idFn) :=
  ⟨(c4_store_load_roundtrip [] "echo" [("x", ZodTy.zstring none)] .idFn).2.1 _
      (c4_store_load_roundtrip [] "echo" [("x", ZodTy.zstring none)] .idFn).1,
    (c4_store_load_roundtrip [] "echo" [("x", ZodTy.zstring none)] .idFn).2.2⟩

/-- C8 counterexample: a descriptor whose templateType is present but the
empty string — which is not one of the enumerated kinds — does not fail at
load time: the JavaScript truthiness test sends it down the function-body
fallback path and loadTool succeeds. -/
theorem c8_unknown_template_counterexample :
    loadToolCore (some { name := "t", functionBody := FnSrc.idFn, schema := [],
                         templateType := some "", config := none }) "t"
      = .ok { name := "t", schema := [], implementation := .fromSource FnSrc.idFn } := rfl

/-- C8 (amended): for every persisted descriptor whose templateType is
present and non-empty but not one of the enumerated template kinds
(api_call, transformation), loading fails with the hard unknown-template
error naming the template type; it never produces a runnable no-op and
never falls back to the function-body path. A present-but-empty
templateType is falsy in JavaScript and is treated as absent, taking the
function-body path instead. -/
theorem c8_unknown_template_amended (pt : SerializedTool) (toolName tt : String)
    (htt : pt.templateType = some tt) (hne : tt ≠ "")
    (hapi : tt ≠ "api_call") (htr : tt ≠ "transformation") :
    loadToolCore (some pt) toolName = .error ("Unknown template type: " ++ tt) := by
  unfold loadToolCore
  dsimp only
  rw [htt]
  dsimp only
  rw [if_pos hne]
  have hcreate : createFunctionFromTemplate tt (pt.config.getD .nil)
      = .error ("Unknown template type: " ++ tt) := by
    unfold createFunctionFromTemplate
    rw [if_neg hapi, if_neg htr]
  rw [hcreate]

theorem c8_unknown_template_amended_witness :
    loadToolCore (some { name := "t", functionBody := FnSrc.idFn, schema := [],
                         templateType := some "banana", config := none }) "t"
      = .error ("Unknown template type: " ++ "banana") :=
  c8_unknown_template_amended _ "t" "banana" rfl (by decide) (by decide) (by decide)

end RecallMcp
